import Mathlib

/-!
# Verification of the sandglass broker core

Shallow embedding of the consumer-group engine (`broker/consumer_group.go`),
the produce path (`broker/produce.go`), the rocksdb/badger storage wrappers and
the merge operators, together with theorems checking the natural-language
specification against this embedding.

Conventions of the embedding:
* byte strings are `List Nat`, offsets and nanosecond timestamps are `Int`;
* the protobuf enum `MarkKind` is an integer (protobuf enums are open: any
  `Int` is a possible wire value, the five named constants are the declared
  ones);
* `uint32` arithmetic carries an explicit `% 2 ^ 32`;
* Go channels are modelled by oracles: a receiver whose `doneCh` is closed is
  one on which the `done` predicate holds, and a send to any other receiver
  succeeds;
* fallible operations return `Except` / `Option`, a `nil`-dereference panic is
  the `none` of an outer `Option`.
-/

namespace Sandglass

/-- Byte strings (`[]byte`). -/
abbrev Bytes := List Nat

/-- The protobuf enum `sgproto.MarkKind`; an open integer type.  The named
values follow the max-kind order the spec gives for clustering keys. -/
abbrev MarkKind := Int

/-- `MarkKind_Unknown`: synthesized when no mark record exists. -/
def MarkKind.Unknown : MarkKind := 0

/-- `MarkKind_NotAcknowledged`. -/
def MarkKind.NotAcknowledged : MarkKind := 1

/-- `MarkKind_Consumed`. -/
def MarkKind.Consumed : MarkKind := 2

/-- `MarkKind_Acknowledged`. -/
def MarkKind.Acknowledged : MarkKind := 3

/-- `MarkKind_Commited`. -/
def MarkKind.Commited : MarkKind := 4

/-- `sgproto.MarkState`: kind plus delivery count (a `uint32`, kept as a `Nat`
with wrap-around applied at each increment). -/
structure MarkState where
  Kind : MarkKind
  DeliveryCount : Nat
  deriving DecidableEq

/-- `sgproto.Message`, restricted to the fields the consumer-group engine
reads: offset, payload, channel, and the producer timestamp (nanoseconds). -/
structure Message where
  Offset : Int
  Key : Bytes
  Value : Bytes
  Channel : String
  ProducedAt : Int
  deriving DecidableEq

/-- `RedeliveryTimeout = 10 * time.Second`, in nanoseconds. -/
def RedeliveryTimeout : Int := 10000000000

/-- `MaxRedeliveryCount = 5`. -/
def MaxRedeliveryCount : Nat := 5

/-- The dead-letter channel name. -/
def DeathLetterChannel : String := "DeathLetter"

/-- Wrap-around of an integer into the int64 range, as Go arithmetic on
`time.Duration` behaves on overflow. -/
def wrap64 (x : Int) : Int :=
  (x + 2 ^ 63) % 2 ^ 64 - 2 ^ 63

/-- `wrap64` is the identity on int64-representable values: the scaled
timeout below is exact whenever the product stays inside the int64 range
(for `RedeliveryTimeout` of 10s, delivery counts up to `2 ^ 63 / 10 ^ 10`,
about `9.2 * 10 ^ 8`). -/
theorem wrap64_eq_self {x : Int} (h1 : -(2 ^ 63) ≤ x) (h2 : x < 2 ^ 63) :
    wrap64 x = x := by
  unfold wrap64
  omega

/-- `ConsumerGroup.shouldRedeliver` from `consumer_group.go`: the switch over
`state.Kind`, with the timeout computed as `RedeliveryTimeout` scaled by the
delivery count when positive; `now` is the current UTC time in nanoseconds.
The scaling `dur *= time.Duration(state.DeliveryCount)` is Go int64
(`time.Duration`) arithmetic, which wraps on overflow — hence the `wrap64`.
The default branch logs a warning and falls through to `return false`. -/
def shouldRedeliver (now : Int) (m : Message) (state : MarkState) : Bool :=
  if state.Kind = MarkKind.NotAcknowledged then
    true
  else if state.Kind = MarkKind.Consumed ∨ state.Kind = MarkKind.Unknown then
    let dur : Int :=
      if state.DeliveryCount > 0 then
        wrap64 (RedeliveryTimeout * state.DeliveryCount)
      else RedeliveryTimeout
    decide (m.ProducedAt + dur < now)
  else if state.Kind = MarkKind.Acknowledged ∨ state.Kind = MarkKind.Commited then
    false
  else
    false

/-- One recovery-scan visit of a redeliverable message in `consumeLoop`
(`consumer_group.go`): if `shouldRedeliver` holds the message is sent to the
internal channel and a new mark is written; with an `Unknown` prior state the
mark `{Consumed, 1}` is written, otherwise `DeliveryCount` is incremented
(uint32 wrap), the kind is switched to `Acknowledged` once the incremented
count reaches `MaxRedeliveryCount`, the updated mark is produced to the offsets
topic and — unconditionally in this branch — the message is re-produced with
`Channel = DeathLetterChannel` to the same topic and partition.  Returns the
written mark (`none` when no redelivery happens) and whether a dead-letter
produce was issued. -/
def scanStep (now : Int) (m : Message) (state : MarkState) :
    Option MarkState × Bool :=
  if shouldRedeliver now m state then
    if state.Kind = MarkKind.Unknown then
      (some ⟨MarkKind.Consumed, 1⟩, false)
    else
      (some ⟨if MaxRedeliveryCount ≤ (state.DeliveryCount + 1) % 2 ^ 32 then
               MarkKind.Acknowledged
             else state.Kind,
             (state.DeliveryCount + 1) % 2 ^ 32⟩, true)
  else
    (none, false)

/-- Iterated recovery scans of one message across successive loop runs.
`nows` gives the clock value at each visit; each visit applies `scanStep`,
a written mark becoming the state seen by the next visit.  Returns the list of
(written mark, dead-letter produced) events. -/
def scanTrace (m : Message) : MarkState → List Int → List (MarkState × Bool)
  | _, [] => []
  | s, now :: rest =>
    match scanStep now m s with
    | (some s', dl) => (s', dl) :: scanTrace m s' rest
    | (none, _) => scanTrace m s rest

/-- The marks written across successive recovery scans of one message. -/
def writtenMarks (m : Message) (s : MarkState) (nows : List Int) :
    List MarkState :=
  (scanTrace m s nows).map Prod.fst

/-- How many times one message is produced onto the dead-letter channel across
successive recovery scans. -/
def deadLetterCount (m : Message) (s : MarkState) (nows : List Int) : Nat :=
  (scanTrace m s nows).countP Prod.snd

/-- A concrete message used in counterexamples and witnesses. -/
def msg0 : Message := ⟨5, [], [], "", 0⟩

/-- C4: the source contradicts the claim's exact-arithmetic timeout.  Go
computes the scaled timeout in `time.Duration`, a wrapping int64: at the mark
state `{Consumed, 3000000000}` (a uint32-representable delivery count) with
`ProducedAt = 0`, the product `10s * 3 * 10 ^ 9` overflows int64 to the
NEGATIVE duration `-6893488147419103232` ns, so `shouldRedeliver` returns
true at `now = 1.79 * 10 ^ 18` (roughly the present) even though the claim's
exact `ProducedAt + RedeliveryTimeout * max(1, DeliveryCount)` — equal to
`3 * 10 ^ 19` — is NOT before `now`. -/
theorem c4_counterexample :
    shouldRedeliver 1790000000000000000 msg0
      ⟨MarkKind.Consumed, 3000000000⟩ = true
    ∧ ¬ (msg0.ProducedAt +
          RedeliveryTimeout * ((max 1 3000000000 : Nat) : Int) <
          1790000000000000000)
    ∧ wrap64 (RedeliveryTimeout * 3000000000) = -6893488147419103232 := by
  refine ⟨by decide, by decide, by decide⟩

/-- C4 (amended): `shouldRedeliver` returns true on `NotAcknowledged`; on
`Consumed` or `Unknown` exactly when
`ProducedAt + wrap64(RedeliveryTimeout * max(1, DeliveryCount))` is before
now, the scaled timeout being computed in Go's wrapping int64
`time.Duration` — equal to the exact product for delivery counts up to about
`9.2 * 10 ^ 8` (`wrap64_eq_self`); false on `Acknowledged` and `Commited`;
and false on any unrecognized kind. -/
theorem c4_shouldRedeliver_cases (now : Int) (m : Message) (s : MarkState) :
    (s.Kind = MarkKind.NotAcknowledged → shouldRedeliver now m s = true)
    ∧ (s.Kind = MarkKind.Consumed ∨ s.Kind = MarkKind.Unknown →
        (shouldRedeliver now m s = true ↔
          m.ProducedAt +
            wrap64 (RedeliveryTimeout * (max 1 s.DeliveryCount : Nat)) <
            now))
    ∧ (s.Kind = MarkKind.Acknowledged ∨ s.Kind = MarkKind.Commited →
        shouldRedeliver now m s = false)
    ∧ (s.Kind ≠ MarkKind.Unknown → s.Kind ≠ MarkKind.NotAcknowledged →
        s.Kind ≠ MarkKind.Consumed → s.Kind ≠ MarkKind.Acknowledged →
        s.Kind ≠ MarkKind.Commited → shouldRedeliver now m s = false) := by
  refine ⟨?_, ?_, ?_, ?_⟩
  · intro h
    simp [shouldRedeliver, h]
  · intro h
    have hna : ¬ s.Kind = MarkKind.NotAcknowledged := by
      rcases h with h | h <;> rw [h] <;> decide
    rw [shouldRedeliver, if_neg hna, if_pos h]
    rcases Nat.eq_zero_or_pos s.DeliveryCount with hz | hp
    · simp [hz, show wrap64 RedeliveryTimeout = RedeliveryTimeout from
        by decide]
    · have hmax : max 1 s.DeliveryCount = s.DeliveryCount :=
        Nat.max_eq_right hp
      simp [hp, hmax]
  · intro h
    have hna : ¬ s.Kind = MarkKind.NotAcknowledged := by
      rcases h with h | h <;> rw [h] <;> decide
    have hcu : ¬ (s.Kind = MarkKind.Consumed ∨ s.Kind = MarkKind.Unknown) := by
      rcases h with h | h <;> rw [h] <;> decide
    rw [shouldRedeliver, if_neg hna, if_neg hcu, if_pos h]
  · intro h1 h2 h3 h4 h5
    rw [shouldRedeliver, if_neg h2, if_neg (by tauto), if_neg (by tauto)]

/-- Witness for C4 at concrete inputs: a `NotAcknowledged` mark is always
redelivered and an unrecognized kind (99) never is. -/
theorem c4_shouldRedeliver_cases_witness :
    shouldRedeliver 0 msg0 ⟨MarkKind.NotAcknowledged, 0⟩ = true
    ∧ shouldRedeliver 0 msg0 ⟨99, 0⟩ = false := by
  constructor
  · exact (c4_shouldRedeliver_cases 0 msg0 ⟨MarkKind.NotAcknowledged, 0⟩).1 rfl
  · exact (c4_shouldRedeliver_cases 0 msg0 ⟨99, 0⟩).2.2.2
      (by decide) (by decide) (by decide) (by decide) (by decide)

/-- C1: the source contradicts the claim.  At a recovery-scan visit of a
message whose prior mark is `{Consumed, 1}` and whose redelivery timer has
expired, the incremented count 2 is still below `MaxRedeliveryCount`, yet the
message IS produced to the dead-letter channel (the dead-letter produce sits
outside the `DeliveryCount >= MaxRedeliveryCount` guard), and across two such
visits the message appears twice on the dead-letter channel — not exactly
once. -/
theorem c1_dead_letter_on_every_redelivery :
    scanStep 20000000000 msg0 ⟨MarkKind.Consumed, 1⟩ =
      (some ⟨MarkKind.Consumed, 2⟩, true)
    ∧ 2 < MaxRedeliveryCount
    ∧ deadLetterCount msg0 ⟨MarkKind.Consumed, 1⟩
        [20000000000, 100000000000] = 2 := by
  refine ⟨?_, by decide, ?_⟩ <;> decide

/-- `shouldRedeliver` rejects an `Acknowledged` mark, whatever the count. -/
theorem shouldRedeliver_acknowledged (now : Int) (m : Message) (c : Nat) :
    shouldRedeliver now m ⟨MarkKind.Acknowledged, c⟩ = false := by
  simp [shouldRedeliver, MarkKind.Acknowledged, MarkKind.NotAcknowledged,
    MarkKind.Consumed, MarkKind.Unknown, MarkKind.Commited]

/-- Shape of the marks the recovery scan writes: the kind is never `Unknown`,
the count fits in a `uint32`, and a count at or above `MaxRedeliveryCount`
forces the kind `Acknowledged`. -/
def WrittenMark (s : MarkState) : Prop :=
  s.Kind ≠ MarkKind.Unknown ∧ s.DeliveryCount < 2 ^ 32 ∧
    (MaxRedeliveryCount ≤ s.DeliveryCount → s.Kind = MarkKind.Acknowledged)

/-- Characterization of a successful `scanStep`: the redeliver test passed,
and the written mark is `{Consumed, 1}` over an `Unknown` prior state (no
dead letter) or the incremented mark (with a dead letter) otherwise. -/
theorem scanStep_some {now : Int} {m : Message} {s w : MarkState} {dl : Bool}
    (h : scanStep now m s = (some w, dl)) :
    shouldRedeliver now m s = true
    ∧ ((s.Kind = MarkKind.Unknown
          ∧ w = ⟨MarkKind.Consumed, 1⟩ ∧ dl = false)
       ∨ (s.Kind ≠ MarkKind.Unknown
          ∧ w = ⟨if MaxRedeliveryCount ≤ (s.DeliveryCount + 1) % 2 ^ 32 then
                   MarkKind.Acknowledged
                 else s.Kind,
                 (s.DeliveryCount + 1) % 2 ^ 32⟩
          ∧ dl = true)) := by
  unfold scanStep at h
  split at h
  · rename_i hr
    refine ⟨hr, ?_⟩
    split at h
    · rename_i hu
      injection h with h1 h2
      injection h1 with h1
      exact Or.inl ⟨hu, h1.symm, h2.symm⟩
    · rename_i hu
      injection h with h1 h2
      injection h1 with h1
      exact Or.inr ⟨hu, h1.symm, h2.symm⟩
  · injection h with h1 h2
    exact Option.noConfusion h1

/-- Every mark the recovery scan writes satisfies `WrittenMark`. -/
theorem scanStep_written {now : Int} {m : Message} {s w : MarkState}
    {dl : Bool} (h : scanStep now m s = (some w, dl)) : WrittenMark w := by
  rcases (scanStep_some h).2 with ⟨-, hw, -⟩ | ⟨hu, hw, -⟩
  · subst hw
    exact ⟨by decide, by decide, by decide⟩
  · subst hw
    refine ⟨?_, Nat.mod_lt _ (by decide), ?_⟩
    · simp only
      split
      · decide
      · exact hu
    · intro hc
      simp only at hc
      simp only [if_pos hc]

/-- From a `WrittenMark` state, a further scan write does not decrease the
delivery count: the only state whose increment would wrap is
`{_, 2 ^ 32 - 1}`, which `WrittenMark` forces to be `Acknowledged`, and
`Acknowledged` is never redelivered. -/
theorem scanStep_mono {now : Int} {m : Message} {s w : MarkState} {dl : Bool}
    (hs : WrittenMark s) (h : scanStep now m s = (some w, dl)) :
    s.DeliveryCount ≤ w.DeliveryCount := by
  obtain ⟨hr, hcase⟩ := scanStep_some h
  rcases hcase with ⟨hu, -, -⟩ | ⟨-, hw, -⟩
  · exact absurd hu hs.1
  · subst hw
    show s.DeliveryCount ≤ (s.DeliveryCount + 1) % 2 ^ 32
    by_cases hlt : s.DeliveryCount + 1 < 2 ^ 32
    · rw [Nat.mod_eq_of_lt hlt]
      exact Nat.le_succ _
    · exfalso
      have h32 := hs.2.1
      have hc : s.DeliveryCount = 2 ^ 32 - 1 := by omega
      have hk := hs.2.2 (by rw [hc]; decide)
      have hsr : shouldRedeliver now m s = false := by
        obtain ⟨k, c⟩ := s
        simp only at hk
        subst hk
        exact shouldRedeliver_acknowledged now m c
      rw [hsr] at hr
      exact Bool.noConfusion hr

/-- The delivery counts along the writes of the recovery scan form a
non-decreasing chain, starting from any `WrittenMark` state (stated with the
starting state prepended). -/
theorem writtenMarks_chain_of (m : Message) (nows : List Int) :
    ∀ s : MarkState, WrittenMark s →
      List.Chain' (fun a b => a.DeliveryCount ≤ b.DeliveryCount)
        (s :: writtenMarks m s nows) := by
  induction nows with
  | nil =>
    intro s _
    simp [writtenMarks, scanTrace]
  | cons now rest ih =>
    intro s hs
    unfold writtenMarks scanTrace
    cases hstep : scanStep now m s with
    | mk o dl =>
      cases o with
      | none =>
        simpa [writtenMarks] using ih s hs
      | some w =>
        simp only [List.map_cons]
        exact List.chain'_cons.mpr
          ⟨scanStep_mono hs hstep, ih w (scanStep_written hstep)⟩

/-- From an arbitrary starting state, the marks written by successive recovery
scans have non-decreasing delivery counts. -/
theorem writtenMarks_chain (m : Message) (s : MarkState) (nows : List Int) :
    List.Chain' (fun a b => a.DeliveryCount ≤ b.DeliveryCount)
      (writtenMarks m s nows) := by
  induction nows generalizing s with
  | nil => simp [writtenMarks, scanTrace]
  | cons now rest ih =>
    unfold writtenMarks scanTrace
    cases hstep : scanStep now m s with
    | mk o dl =>
      cases o with
      | none => simpa [writtenMarks] using ih s
      | some w =>
        simp only [List.map_cons]
        have h := writtenMarks_chain_of m rest w (scanStep_written hstep)
        simpa [writtenMarks] using h

/-- C8: a scan write over an `Unknown` prior state is `{Consumed, 1}`, any
other scan write increments the prior count by one (uint32 wrap), and across
successive scan writes for one (group, offset) the delivery counts never
decrease. -/
theorem c8_delivery_count_monotone (m : Message) (s w : MarkState) (now : Int)
    (nows : List Int) :
    ((scanStep now m s).1 = some w →
       (s.Kind = MarkKind.Unknown → w = ⟨MarkKind.Consumed, 1⟩)
       ∧ (s.Kind ≠ MarkKind.Unknown →
            w.DeliveryCount = (s.DeliveryCount + 1) % 2 ^ 32))
    ∧ List.Chain' (fun a b => a.DeliveryCount ≤ b.DeliveryCount)
        (writtenMarks m s nows) := by
  constructor
  · intro h
    have h' : scanStep now m s = (some w, (scanStep now m s).2) := by
      rw [← h]
    rcases (scanStep_some h').2 with ⟨hu, hw, -⟩ | ⟨hu, hw, -⟩
    · exact ⟨fun _ => hw, fun hcon => absurd hu hcon⟩
    · refine ⟨fun hcon => absurd hcon hu, fun _ => ?_⟩
      rw [hw]
  · exact writtenMarks_chain m s nows

/-- Witness for C8 at a concrete input: the first scan write over an `Unknown`
mark is `{Consumed, 1}`, and a two-visit trace has chained counts. -/
theorem c8_delivery_count_monotone_witness :
    (scanStep 20000000000 msg0 ⟨MarkKind.Unknown, 0⟩).1 =
      some ⟨MarkKind.Consumed, 1⟩
    ∧ (MarkState.mk MarkKind.Consumed 1 = ⟨MarkKind.Consumed, 1⟩)
    ∧ List.Chain' (fun a b => a.DeliveryCount ≤ b.DeliveryCount)
        (writtenMarks msg0 ⟨MarkKind.Unknown, 0⟩
          [20000000000, 100000000000]) := by
  refine ⟨by decide, ?_, ?_⟩
  · exact ((c8_delivery_count_monotone msg0 ⟨MarkKind.Unknown, 0⟩
      ⟨MarkKind.Consumed, 1⟩ 20000000000 []).1 (by decide)).1 rfl
  · exact (c8_delivery_count_monotone msg0 ⟨MarkKind.Unknown, 0⟩
      ⟨MarkKind.Consumed, 1⟩ 20000000000 [20000000000, 100000000000]).2

/-- A registered receiver: consumer name plus the identities of its delivery
and done channels (a `Nat` token stands for Go channel identity). -/
structure Receiver where
  name : String
  msgCh : Nat
  doneCh : Nat
  deriving DecidableEq

/-- `ConsumerGroup.removeConsumer`: delete the first receiver with the given
name, reporting whether one was removed. -/
def removeConsumer (nm : String) : List Receiver → List Receiver × Bool
  | [] => ([], false)
  | r :: rest =>
    if r.name = nm then (rest, true)
    else (r :: (removeConsumer nm rest).1, (removeConsumer nm rest).2)

/-- Outcome of the `selectreceiver` block for one message. -/
inductive SelectResult where
  | sent : Receiver → SelectResult
  | exitLoop : SelectResult
  | skip : SelectResult
  deriving DecidableEq

/-- The `selectreceiver` block of `consumeLoop` (`consumer_group.go`) for one
message: `i` is incremented FIRST (the `selectreceiver` label sits before
`i++`), then `receivers[i % len(receivers)]` is selected; if its `doneCh` has
fired (the `done` predicate holds for its name) the receiver is removed and,
when receivers remain, the `goto selectreceiver` re-enters before `i++`, so
`i` is incremented again; when none remain the dispatch loop breaks
(`exitLoop`).  `skip` is the `removeConsumer = false` fall-through of the
select (unreachable, since the selected receiver is in the list); `fuel`
bounds the `goto` retries (each retry removes a receiver, so
`receivers.length + 1` always suffices). -/
def dispatchOne (done : String → Bool) :
    Nat → Nat → List Receiver → Nat × List Receiver × SelectResult
  | 0, i, rs => (i, rs, SelectResult.exitLoop)
  | fuel + 1, i, rs =>
    match rs[(i + 1) % rs.length]? with
    | none => (i + 1, rs, SelectResult.exitLoop)
    | some r =>
      if done r.name then
        if (removeConsumer r.name rs).2 then
          if (removeConsumer r.name rs).1.length = 0 then
            (i + 1, (removeConsumer r.name rs).1, SelectResult.exitLoop)
          else
            dispatchOne done fuel (i + 1) (removeConsumer r.name rs).1
        else (i + 1, rs, SelectResult.skip)
      else (i + 1, rs, SelectResult.sent r)

/-- State of the dispatch loop of `consumeLoop`: round-robin index `i`, the
registered receivers, the loop variable `m` (the last message received from
the internal channel, `none` for Go `nil`), the dispatch log (message,
receiver name), and whether the loop exited via `break loop`. -/
structure LoopState where
  i : Nat
  receivers : List Receiver
  lastReceived : Option Message
  dispatched : List (Message × String)
  broke : Bool
  deriving DecidableEq

/-- The `for m = range msgCh` dispatch loop of `consumeLoop`: each message is
bound to the loop variable `m` before dispatch; a successful send appends to
the dispatch log, `exitLoop` is `break loop`, and `skip` falls through to the
next message. -/
def dispatchLoop (done : String → Bool) :
    LoopState → List Message → LoopState
  | st, [] => st
  | st, msg :: rest =>
    match dispatchOne done (st.receivers.length + 1) st.i st.receivers with
    | (i', rs', SelectResult.sent r) =>
      dispatchLoop done
        ⟨i', rs', some msg, st.dispatched ++ [(msg, r.name)], st.broke⟩ rest
    | (i', rs', SelectResult.exitLoop) =>
      ⟨i', rs', some msg, st.dispatched, true⟩
    | (i', rs', SelectResult.skip) =>
      dispatchLoop done ⟨i', rs', some msg, st.dispatched, st.broke⟩ rest

/-- The dispatch phase run from the initial state (`var i int`, `var m ...`:
`i = 0`, `m = nil`, empty log). -/
def runDispatcher (done : String → Bool) (rs : List Receiver)
    (msgs : List Message) : LoopState :=
  dispatchLoop done ⟨0, rs, none, [], false⟩ msgs

/-- The `MarkConsumed` call after the dispatch loop exits: the offset of the
loop variable `m` is marked when `m` is non-nil and its offset differs from
the starting consumed watermark. -/
def exitMark (lastConsumed : Int) (st : LoopState) : Option Int :=
  match st.lastReceived with
  | none => none
  | some m => if m.Offset = lastConsumed then none else some m.Offset

/-- Every receiver surviving `removeConsumer` was registered before. -/
theorem removeConsumer_subset (nm : String) :
    ∀ rs : List Receiver, ∀ r ∈ (removeConsumer nm rs).1, r ∈ rs := by
  intro rs
  induction rs with
  | nil => intro r h; simp [removeConsumer] at h
  | cons x rest ih =>
    intro r h
    unfold removeConsumer at h
    by_cases hx : x.name = nm
    · simp only [hx, if_pos rfl] at h
      exact List.mem_cons_of_mem x h
    · rw [if_neg hx] at h
      rcases List.mem_cons.mp h with h | h
      · exact h ▸ List.mem_cons_self x rest
      · exact List.mem_cons_of_mem x (ih r h)

/-- `removeConsumer` succeeds whenever some registered receiver carries the
name. -/
theorem removeConsumer_mem (nm : String) :
    ∀ rs : List Receiver, ∀ r ∈ rs, r.name = nm →
      (removeConsumer nm rs).2 = true := by
  intro rs
  induction rs with
  | nil => intro r h; exact absurd h (List.not_mem_nil r)
  | cons x rest ih =>
    intro r h hn
    unfold removeConsumer
    by_cases hx : x.name = nm
    · simp [hx]
    · rw [if_neg hx]
      rcases List.mem_cons.mp h with h | h
      · exact absurd (h ▸ hn) hx
      · exact ih r h hn

/-- `dispatchOne` never takes the `removeConsumer = false` fall-through. -/
theorem dispatchOne_no_skip (done : String → Bool) :
    ∀ (fuel i : Nat) (rs : List Receiver),
      (dispatchOne done fuel i rs).2.2 ≠ SelectResult.skip := by
  intro fuel
  induction fuel with
  | zero =>
    intro i rs
    simp [dispatchOne]
  | succ fuel ih =>
    intro i rs
    unfold dispatchOne
    cases hg : rs[(i + 1) % rs.length]? with
    | none => simp
    | some r =>
      simp only
      split
      · rename_i hd
        split
        · split
          · simp
          · exact ih (i + 1) (removeConsumer r.name rs).1
        · rename_i hrem
          exact absurd
            (removeConsumer_mem r.name rs r (List.getElem?_mem hg) rfl)
            hrem
      · simp

/-- Any receiver `dispatchOne` actually sends to is live (its `doneCh` has
not fired), was registered, and the index strictly increased to reach it. -/
theorem dispatchOne_sent_live (done : String → Bool) :
    ∀ (fuel i j : Nat) (rs rs' : List Receiver) (r : Receiver),
      dispatchOne done fuel i rs = (j, rs', SelectResult.sent r) →
      done r.name = false ∧ r ∈ rs ∧ i < j := by
  intro fuel
  induction fuel with
  | zero =>
    intro i j rs rs' r h
    unfold dispatchOne at h
    injection h with h1 h2
    injection h2 with h2 h3
    exact SelectResult.noConfusion h3
  | succ fuel ih =>
    intro i j rs rs' r h
    unfold dispatchOne at h
    cases hg : rs[(i + 1) % rs.length]? with
    | none =>
      rw [hg] at h
      injection h with h1 h2
      injection h2 with h2 h3
      exact SelectResult.noConfusion h3
    | some r0 =>
      rw [hg] at h
      simp only at h
      split at h
      · rename_i hd
        split at h
        · split at h
          · injection h with h1 h2
            injection h2 with h2 h3
            exact SelectResult.noConfusion h3
          · obtain ⟨h1, h2, h3⟩ := ih (i + 1) j _ rs' r h
            exact ⟨h1, removeConsumer_subset r0.name rs r h2,
              Nat.lt_of_succ_lt h3⟩
        · injection h with h1 h2
          injection h2 with h2 h3
          exact SelectResult.noConfusion h3
      · rename_i hd
        injection h with h1 h2
        injection h2 with h2 h3
        injection h3 with h3
        subst h3
        subst h1
        exact ⟨Bool.not_eq_true _ ▸ Bool.of_not_eq_true hd,
          List.getElem?_mem hg, Nat.lt_succ_self i⟩

/-- Whatever the dispatch loop reports as last received was already there or
is one of the channel's messages. -/
theorem dispatchLoop_lastReceived (done : String → Bool) :
    ∀ (msgs : List Message) (st : LoopState) (m : Message),
      (dispatchLoop done st msgs).lastReceived = some m →
      st.lastReceived = some m ∨ m ∈ msgs := by
  intro msgs
  induction msgs with
  | nil =>
    intro st m h
    exact Or.inl h
  | cons msg rest ih =>
    intro st m h
    unfold dispatchLoop at h
    cases hd : dispatchOne done (st.receivers.length + 1) st.i st.receivers with
    | mk i' p =>
      cases p with
      | mk rs' res =>
        rw [hd] at h
        cases res with
        | sent r =>
          simp only at h
          rcases ih _ m h with h | h
          · simp only at h
            injection h with h
            exact Or.inr (h ▸ List.mem_cons_self msg rest)
          · exact Or.inr (List.mem_cons_of_mem msg h)
        | exitLoop =>
          simp only at h
          injection h with h
          exact Or.inr (h ▸ List.mem_cons_self msg rest)
        | skip =>
          simp only at h
          rcases ih _ m h with h | h
          · simp only at h
            injection h with h
            exact Or.inr (h ▸ List.mem_cons_self msg rest)
          · exact Or.inr (List.mem_cons_of_mem msg h)

/-- The dispatch log grows by a prefix of the channel's messages, in order. -/
theorem dispatchLoop_dispatched_prefix (done : String → Bool) :
    ∀ (msgs : List Message) (st : LoopState), ∃ k,
      (dispatchLoop done st msgs).dispatched.map Prod.fst =
        st.dispatched.map Prod.fst ++ msgs.take k := by
  intro msgs
  induction msgs with
  | nil =>
    intro st
    exact ⟨0, by simp [dispatchLoop]⟩
  | cons msg rest ih =>
    intro st
    unfold dispatchLoop
    cases hd : dispatchOne done (st.receivers.length + 1) st.i st.receivers with
    | mk i' p =>
      cases p with
      | mk rs' res =>
        cases res with
        | sent r =>
          simp only
          obtain ⟨k, hk⟩ :=
            ih ⟨i', rs', some msg, st.dispatched ++ [(msg, r.name)], st.broke⟩
          refine ⟨k + 1, ?_⟩
          rw [hk]
          simp [List.take_succ_cons]
        | exitLoop =>
          exact ⟨0, by simp⟩
        | skip =>
          exact absurd (show (dispatchOne done (st.receivers.length + 1)
              st.i st.receivers).2.2 = SelectResult.skip by rw [hd])
            (dispatchOne_no_skip done (st.receivers.length + 1)
              st.i st.receivers)

/-- When the dispatch loop drains the channel without `break loop`, the last
received message is the last channel message and it heads the tail of the
dispatch log: the loop variable then really is the last dispatched message. -/
theorem dispatchLoop_no_break (done : String → Bool) :
    ∀ (msgs : List Message) (st : LoopState),
      (dispatchLoop done st msgs).broke = false → msgs ≠ [] →
      (dispatchLoop done st msgs).lastReceived = msgs.getLast?
      ∧ ∃ p, (dispatchLoop done st msgs).dispatched.getLast? = some p
          ∧ msgs.getLast? = some p.1 := by
  intro msgs
  induction msgs with
  | nil =>
    intro st _ hne
    exact absurd rfl hne
  | cons msg rest ih =>
    intro st hb _
    unfold dispatchLoop at hb ⊢
    cases hd : dispatchOne done (st.receivers.length + 1) st.i st.receivers with
    | mk i' p =>
      cases p with
      | mk rs' res =>
        rw [hd] at hb
        cases res with
        | sent r =>
          simp only at hb ⊢
          cases rest with
          | nil =>
            refine ⟨by simp [dispatchLoop], ⟨(msg, r.name), ?_, by simp⟩⟩
            simp [dispatchLoop, List.getLast?_concat]
          | cons b t =>
            have h := ih
              ⟨i', rs', some msg, st.dispatched ++ [(msg, r.name)], st.broke⟩
              hb (by simp)
            rw [List.getLast?_cons_cons]
            exact h
        | exitLoop =>
          simp only at hb
          exact absurd hb (by decide)
        | skip =>
          exact absurd (show (dispatchOne done (st.receivers.length + 1)
              st.i st.receivers).2.2 = SelectResult.skip by rw [hd])
            (dispatchOne_no_skip done (st.receivers.length + 1)
              st.i st.receivers)

/-- A receiver used in counterexamples and witnesses. -/
def recvA : Receiver := ⟨"a", 0, 1⟩

/-- A second receiver used in counterexamples and witnesses. -/
def recvB : Receiver := ⟨"b", 2, 3⟩

/-- C2: the source contradicts the claim.  With one receiver whose `doneCh`
has fired and one message on the internal channel, the dispatch loop receives
the message, removes the receiver, and `break`s: nothing is ever handed to a
receiver (the dispatch log is empty), yet `MarkConsumed` on exit writes that
very message's offset (5, with starting watermark 0) — the code marks the
last RECEIVED message, not the last successfully dispatched one. -/
theorem c2_counterexample :
    (runDispatcher (fun n => n == "a") [recvA] [msg0]).dispatched = []
    ∧ (runDispatcher (fun n => n == "a") [recvA] [msg0]).lastReceived =
        some msg0
    ∧ exitMark 0 (runDispatcher (fun n => n == "a") [recvA] [msg0]) =
        some msg0.Offset := by
  refine ⟨?_, ?_, ?_⟩ <;> decide

/-- C2 (amended): on loop exit the offset written as a `Consumed` mark is
that of the last message RECEIVED from the internal channel (if any, and when
different from the starting consumed watermark) — dispatched or not.
Precisely: (a) the exit mark is exactly the last received message's offset
when that offset differs from the watermark; (b) a received message always
comes from the channel; (c) the dispatched messages form a prefix of the
received ones, in order; (d) when the loop drains the channel without
`break loop`, the last received message IS the last dispatched one, which
recovers the claim's wording for that case. -/
theorem c2_exit_mark_amended (done : String → Bool) (rs : List Receiver)
    (msgs : List Message) (lastConsumed : Int) :
    (∀ o : Int,
       exitMark lastConsumed (runDispatcher done rs msgs) = some o ↔
       ∃ m : Message, (runDispatcher done rs msgs).lastReceived = some m
         ∧ o = m.Offset ∧ m.Offset ≠ lastConsumed)
    ∧ (∀ m : Message,
         (runDispatcher done rs msgs).lastReceived = some m → m ∈ msgs)
    ∧ (∃ k,
         (runDispatcher done rs msgs).dispatched.map Prod.fst = msgs.take k)
    ∧ ((runDispatcher done rs msgs).broke = false → msgs ≠ [] →
         (runDispatcher done rs msgs).lastReceived = msgs.getLast?
         ∧ ∃ p, (runDispatcher done rs msgs).dispatched.getLast? = some p
             ∧ msgs.getLast? = some p.1) := by
  refine ⟨?_, ?_, ?_, ?_⟩
  · intro o
    unfold exitMark
    cases hm : (runDispatcher done rs msgs).lastReceived with
    | none => simp
    | some m =>
      dsimp only
      by_cases he : m.Offset = lastConsumed
      · rw [if_pos he]
        constructor
        · intro h
          exact Option.noConfusion h
        · rintro ⟨m', hm', rfl, hne⟩
          injection hm' with hm'
          exact absurd (hm' ▸ he) hne
      · rw [if_neg he]
        constructor
        · intro h
          injection h with h
          exact ⟨m, rfl, h.symm, he⟩
        · rintro ⟨m', hm', rfl, -⟩
          injection hm' with hm'
          rw [hm']
  · intro m h
    rcases dispatchLoop_lastReceived done msgs ⟨0, rs, none, [], false⟩ m h
      with h | h
    · exact Option.noConfusion h
    · exact h
  · simpa using dispatchLoop_dispatched_prefix done msgs
      ⟨0, rs, none, [], false⟩
  · exact dispatchLoop_no_break done msgs ⟨0, rs, none, [], false⟩

/-- Witness for C2 (amended) at a concrete input: with a live receiver, the
single message is received, it belongs to the channel's messages, and without
a `break` it is also the last dispatched message. -/
theorem c2_exit_mark_amended_witness :
    msg0 ∈ [msg0]
    ∧ (runDispatcher (fun _ => false) [recvA] [msg0]).lastReceived =
        [msg0].getLast? := by
  constructor
  · exact (c2_exit_mark_amended (fun _ => false) [recvA] [msg0] 0).2.1 msg0
      (by decide)
  · exact ((c2_exit_mark_amended (fun _ => false) [recvA] [msg0] 0).2.2.2
      (by decide) (by decide)).1

/-- C3: the source contradicts the claim's "do not increment `i` again on
retry".  With receivers `[a, b]`, index `i = 0` and `b`'s `doneCh` fired: the
first attempt increments `i` to 1 and selects `b`; `b` is removed and the
`goto selectreceiver` re-enters BEFORE `i++`, so the retry increments `i`
again (to 2) for the same message before selecting `a` — the final index is
2, not the 1 the claim predicts. -/
theorem c3_counterexample :
    dispatchOne (fun n => n == "b") 3 0 [recvA, recvB] =
      (2, [recvA], SelectResult.sent recvA)
    ∧ (dispatchOne (fun n => n == "b") 3 0 [recvA, recvB]).1 ≠ 0 + 1 := by
  refine ⟨?_, ?_⟩ <;> decide

/-- C3 (amended): for every message the index is incremented once and
`receivers[i % len]` is selected; a live selection is dispatched to; if the
selected receiver's `doneCh` fired it is removed and, when receivers remain,
the retry re-enters before `i++` — `i` IS incremented again for the same
message — selecting among the remaining receivers; when zero remain the loop
exits.  Consequently any receiver actually sent to is live and was
registered, and the index strictly increases. -/
theorem c3_round_robin_amended (done : String → Bool) (fuel i : Nat)
    (rs : List Receiver) (r : Receiver) :
    (rs[(i + 1) % rs.length]? = some r → done r.name = false →
       dispatchOne done (fuel + 1) i rs = (i + 1, rs, SelectResult.sent r))
    ∧ (rs[(i + 1) % rs.length]? = some r → done r.name = true →
       (removeConsumer r.name rs).1 = [] →
         dispatchOne done (fuel + 1) i rs =
           (i + 1, [], SelectResult.exitLoop))
    ∧ (rs[(i + 1) % rs.length]? = some r → done r.name = true →
       (removeConsumer r.name rs).1 ≠ [] →
         dispatchOne done (fuel + 1) i rs =
           dispatchOne done fuel (i + 1) (removeConsumer r.name rs).1)
    ∧ (∀ (j : Nat) (rs' : List Receiver) (r' : Receiver),
         dispatchOne done fuel i rs = (j, rs', SelectResult.sent r') →
         done r'.name = false ∧ r' ∈ rs ∧ i < j) := by
  refine ⟨?_, ?_, ?_,
    fun j rs' r' h => dispatchOne_sent_live done fuel i j rs rs' r' h⟩
  · intro hg hdone
    unfold dispatchOne
    rw [hg]
    simp [hdone]
  · intro hg hdone hrem
    have h2 : (removeConsumer r.name rs).2 = true :=
      removeConsumer_mem r.name rs r (List.getElem?_mem hg) rfl
    unfold dispatchOne
    rw [hg]
    simp [hdone, h2, hrem]
  · intro hg hdone hrem
    have h2 : (removeConsumer r.name rs).2 = true :=
      removeConsumer_mem r.name rs r (List.getElem?_mem hg) rfl
    have hlen : (removeConsumer r.name rs).1.length ≠ 0 := by
      simpa [List.length_eq_zero] using hrem
    simp only [dispatchOne]
    rw [hg]
    simp [hdone, h2, hlen]

/-- Witness for C3 (amended) at concrete inputs: a live selection is
dispatched with a single increment, and a fired selection with another
receiver left re-enters the retry. -/
theorem c3_round_robin_amended_witness :
    dispatchOne (fun n => n == "b") 2 0 [recvA] =
      (1, [recvA], SelectResult.sent recvA)
    ∧ dispatchOne (fun n => n == "b") 3 0 [recvA, recvB] =
        dispatchOne (fun n => n == "b") 2 1 [recvA] := by
  constructor
  · exact (c3_round_robin_amended (fun n => n == "b") 1 0 [recvA] recvA).1
      (by decide) (by decide)
  · have h := (c3_round_robin_amended (fun n => n == "b") 2 0
      [recvA, recvB] recvB).2.2.1 (by decide) (by decide) (by decide)
    have hrem : (removeConsumer recvB.name [recvA, recvB]).1 = [recvA] := by
      decide
    rw [hrem] at h
    exact h

/-- State of a `ConsumerGroup` as seen by `register`: the receiver list, a
fresh-channel counter (each Go `make(chan ...)` yields a distinct channel,
numbered by the counter), and how many consume loops were ever spawned
(`go c.consumeLoop()`). -/
structure CGState where
  receivers : List Receiver
  nextCh : Nat
  loopsSpawned : Nat
  deriving DecidableEq

/-- `ConsumerGroup.getReceiver`: the first receiver carrying the name. -/
def getReceiver (s : CGState) (nm : String) : Option Receiver :=
  s.receivers.find? (fun r => r.name == nm)

/-- The fresh receiver `register` allocates for a new name: the name plus two
newly made channels. -/
def freshReceiver (s : CGState) (nm : String) : Receiver :=
  ⟨nm, s.nextCh, s.nextCh + 1⟩

/-- The group state after `register` appends a fresh receiver: the new list,
the advanced channel counter, and one more spawned loop exactly when the list
length became 1. -/
def registeredState (s : CGState) (nm : String) : CGState :=
  ⟨s.receivers ++ [freshReceiver s nm], s.nextCh + 2,
   if (s.receivers ++ [freshReceiver s nm]).length = 1 then
     s.loopsSpawned + 1
   else s.loopsSpawned⟩

/-- `ConsumerGroup.register`: return the existing receiver with this name, or
append a fresh one (two new channels) and spawn the consume loop exactly when
the receiver list's length becomes 1 (`len(c.receivers) == 1` after the
append). -/
def register (s : CGState) (nm : String) : Receiver × CGState :=
  match getReceiver s nm with
  | some r => (r, s)
  | none => (freshReceiver s nm, registeredState s nm)

/-- `ConsumerGroup.Consume`: register, hand back the receiver's message and
done channels. -/
def Consume (s : CGState) (nm : String) : (Nat × Nat) × CGState :=
  (((register s nm).1.msgCh, (register s nm).1.doneCh), (register s nm).2)

/-- `register` when the name is already registered. -/
theorem register_found {s : CGState} {nm : String} {r : Receiver}
    (h : getReceiver s nm = some r) : register s nm = (r, s) := by
  unfold register
  rw [h]

/-- `register` when the name is new. -/
theorem register_new {s : CGState} {nm : String}
    (h : getReceiver s nm = none) :
    register s nm = (freshReceiver s nm, registeredState s nm) := by
  unfold register
  rw [h]

/-- Appending one element to a `find?`-miss list finds exactly that element
when it matches. -/
theorem find?_append_singleton {α : Type} {p : α → Bool} {l : List α}
    (h : l.find? p = none) (a : α) :
    (l ++ [a]).find? p = if p a then some a else none := by
  induction l with
  | nil =>
    cases hp : p a <;> simp [List.find?, hp]
  | cons x rest ih =>
    by_cases hx : p x
    · rw [List.find?_cons_of_pos _ hx] at h
      exact Option.noConfusion h
    · rw [List.find?_cons_of_neg _ hx] at h
      rw [List.cons_append, List.find?_cons_of_neg _ hx]
      exact ih h

/-- A registered fresh receiver is found again by its name. -/
theorem getReceiver_registeredState {s : CGState} {nm : String}
    (h : getReceiver s nm = none) :
    getReceiver (registeredState s nm) nm = some (freshReceiver s nm) := by
  unfold getReceiver at h ⊢
  unfold registeredState
  rw [find?_append_singleton h]
  simp [freshReceiver]

/-- C9: `Consume` is idempotent per consumer name — a second call returns the
same channel pair and leaves the group state untouched (no second receiver,
no second loop) — and the consume loop is spawned exactly on the transition
from zero receivers to one. -/
theorem c9_consume_idempotent (s : CGState) (nm : String) :
    (Consume (Consume s nm).2 nm).1 = (Consume s nm).1
    ∧ (Consume (Consume s nm).2 nm).2 = (Consume s nm).2
    ∧ ((Consume s nm).2.loopsSpawned = s.loopsSpawned + 1 ↔ s.receivers = [])
    ∧ ((Consume s nm).2.loopsSpawned = s.loopsSpawned ↔ s.receivers ≠ []) := by
  cases h : getReceiver s nm with
  | some r =>
    have hne : s.receivers ≠ [] := by
      intro hnil
      unfold getReceiver at h
      rw [hnil] at h
      exact Option.noConfusion h
    have e1 : Consume s nm = ((r.msgCh, r.doneCh), s) := by
      unfold Consume
      rw [register_found h]
    have e2 : (Consume s nm).2 = s := by
      rw [e1]
    refine ⟨by rw [e2], by rw [e2]; exact e2, ?_, ?_⟩
    · rw [e2]
      constructor
      · intro hcon
        exact absurd hcon (by omega)
      · intro hnil
        exact absurd hnil hne
    · rw [e2]
      exact ⟨fun _ => hne, fun _ => rfl⟩
  | none =>
    have e1 : Consume s nm =
        ((s.nextCh, s.nextCh + 1), registeredState s nm) := by
      unfold Consume
      rw [register_new h]
      rfl
    have e2 : Consume (registeredState s nm) nm =
        ((s.nextCh, s.nextCh + 1), registeredState s nm) := by
      unfold Consume
      rw [register_found (getReceiver_registeredState h)]
      rfl
    have e3 : (Consume s nm).2 = registeredState s nm := by
      rw [e1]
    have e4 : (registeredState s nm).loopsSpawned =
        if (s.receivers ++ [freshReceiver s nm]).length = 1 then
          s.loopsSpawned + 1
        else s.loopsSpawned := rfl
    refine ⟨by rw [e3, e2, e1], by rw [e3, e2], ?_, ?_⟩
    · rw [e3, e4]
      by_cases hnil : s.receivers = []
      · have hlen : (s.receivers ++ [freshReceiver s nm]).length = 1 := by
          rw [hnil]
          rfl
        rw [if_pos hlen]
        exact ⟨fun _ => hnil, fun _ => rfl⟩
      · have hlen : (s.receivers ++ [freshReceiver s nm]).length ≠ 1 := by
          have := List.length_pos.mpr hnil
          simp only [List.length_append, List.length_singleton]
          omega
        rw [if_neg hlen]
        constructor
        · intro hcon
          exact absurd hcon (by omega)
        · intro hcon
          exact absurd hcon hnil
    · rw [e3, e4]
      by_cases hnil : s.receivers = []
      · have hlen : (s.receivers ++ [freshReceiver s nm]).length = 1 := by
          rw [hnil]
          rfl
        rw [if_pos hlen]
        constructor
        · intro hcon
          exact absurd hcon (by omega)
        · intro hcon
          exact absurd hnil hcon
      · have hlen : (s.receivers ++ [freshReceiver s nm]).length ≠ 1 := by
          have := List.length_pos.mpr hnil
          simp only [List.length_append, List.length_singleton]
          omega
        rw [if_neg hlen]
        exact ⟨fun _ => hnil, fun _ => rfl⟩

/-- An error returned by `Broker.Produce` (`produce.go`). -/
inductive ProduceError where
  | noMessageToProduce
  | topicNotFound
  | unknownPartition (id : String)
  | noLeaderFound
  | storage (code : Nat)
  deriving DecidableEq

/-- A partition: identity, its append-only message log, and the counter from
which the leader assigns fresh offsets. -/
structure Partition where
  id : String
  log : List Message
  nextOffset : Int
  deriving DecidableEq

/-- A topic: name plus its partitions. -/
structure Topic where
  name : String
  partitions : List Partition
  deriving DecidableEq

/-- Local broker state: this node's name and its hosted topics. -/
structure Broker where
  selfName : String
  topics : List Topic
  deriving DecidableEq

/-- A cluster node; only the name matters for routing. -/
structure Node where
  name : String
  deriving DecidableEq

/-- `sgproto.ProduceMessageRequest`: topic, optional partition (empty string
for "choose one"), and the batch. -/
structure ProduceReq where
  topic : String
  partition : String
  messages : List Message
  deriving DecidableEq

/-- Cluster-environment oracles for one `Produce` call: partition leadership,
the remote leader's verbatim response to a forwarded request, the random
partition choice, and whether the local storage engine fails the append. -/
structure Cluster where
  leaderOf : String → String → Option Node
  forward : ProduceReq → Except ProduceError (List Int)
  chooseIdx : Nat
  storageFail : Bool

/-- `Broker.getTopic`. -/
def Broker.getTopic (b : Broker) (nm : String) : Option Topic :=
  b.topics.find? (fun t => t.name == nm)

/-- `Topic.GetPartition`. -/
def Topic.getPartition (t : Topic) (id : String) : Option Partition :=
  t.partitions.find? (fun p => p.id == id)

/-- `Topic.ChooseRandomPartition`: the uniformly random choice, driven by the
oracle index; `none` only for a partitionless topic (where the Go code would
dereference nil). -/
def chooseRandomPartition (cl : Cluster) (t : Topic) : Option Partition :=
  t.partitions[cl.chooseIdx % t.partitions.length]?

/-- Partition resolution in `Broker.Produce`: a named partition is looked up,
otherwise one is chosen at random. -/
def resolvePartition (cl : Cluster) (t : Topic) (reqPartition : String) :
    Option Partition :=
  if reqPartition = "" then chooseRandomPartition cl t
  else t.getPartition reqPartition

/-- The offsets a batch append assigns: `base + 1, …, base + n`. -/
def offsetsFrom (base : Int) : Nat → List Int
  | 0 => []
  | n + 1 => (base + 1) :: offsetsFrom (base + 1) n

/-- Stamp each message of a batch with the next fresh offset. -/
def assignOffsets (base : Int) : List Message → List Message
  | [] => []
  | m :: rest => { m with Offset := base + 1 } :: assignOffsets (base + 1) rest

/-- Modelled from the spec: `Partition.BatchPutMessages` lives in the `topic`
package, which is not among the provided sources.  Per §4.B, `batchPut(msgs)`
assigns each message a fresh offset strictly greater than all prior ones and
appends atomically (all-or-nothing), failing with a storage error; the `fail`
flag is the storage engine's error oracle. -/
def batchPutMessages (p : Partition) (msgs : List Message) (fail : Bool) :
    Except Nat (Partition × List Message) :=
  if fail then Except.error 0
  else
    Except.ok
      ({ p with log := p.log ++ assignOffsets p.nextOffset msgs,
                nextOffset := p.nextOffset + msgs.length },
       assignOffsets p.nextOffset msgs)

/-- Replace partition `p` (matched by id) of topic `nm` in the local state. -/
def setPartition (b : Broker) (nm : String) (p : Partition) : Broker :=
  { b with topics := b.topics.map (fun t =>
      if t.name = nm then
        { t with partitions := t.partitions.map (fun q =>
            if q.id = p.id then p else q) }
      else t) }

/-- `Broker.Produce` (`produce.go`): reject an empty batch, look up the topic,
resolve the partition, look up the partition leader; when the leader is
another node forward the whole request and return its response verbatim,
otherwise batch-append locally and return each message's assigned offset in
input order.  The outer `none` is the nil dereference on the randomly chosen
partition of a partitionless topic. -/
def Produce (cl : Cluster) (b : Broker) (req : ProduceReq) :
    Option (Except ProduceError (List Int) × Broker) :=
  if req.messages.length = 0 then
    some (Except.error ProduceError.noMessageToProduce, b)
  else
    match b.getTopic req.topic with
    | none => some (Except.error ProduceError.topicNotFound, b)
    | some t =>
      match resolvePartition cl t req.partition with
      | none =>
        if req.partition = "" then none
        else
          some (Except.error (ProduceError.unknownPartition req.partition), b)
      | some p =>
        match cl.leaderOf req.topic p.id with
        | none => some (Except.error ProduceError.noLeaderFound, b)
        | some leader =>
          if leader.name ≠ b.selfName then
            some (cl.forward req, b)
          else
            match batchPutMessages p req.messages cl.storageFail with
            | Except.error e =>
              some (Except.error (ProduceError.storage e), b)
            | Except.ok pr =>
              some (Except.ok (pr.2.map Message.Offset),
                    setPartition b req.topic pr.1)

/-- The offsets stamped by `assignOffsets` are `base + 1, …, base + n`, one
per input message, in input order. -/
theorem assignOffsets_offsets (base : Int) :
    ∀ msgs : List Message,
      (assignOffsets base msgs).map Message.Offset =
        offsetsFrom base msgs.length := by
  intro msgs
  induction msgs generalizing base with
  | nil => rfl
  | cons m rest ih =>
    simp only [assignOffsets, List.map_cons, List.length_cons, offsetsFrom]
    rw [ih (base + 1)]

/-- `offsetsFrom` yields one offset per message. -/
theorem offsetsFrom_length (base : Int) :
    ∀ n : Nat, (offsetsFrom base n).length = n := by
  intro n
  induction n generalizing base with
  | zero => rfl
  | succ n ih =>
    simp only [offsetsFrom, List.length_cons, ih]

/-- C6: `Produce` fails with the no-messages error when the batch is empty;
with topic-not-found when the topic lookup fails; with unknown-partition when
the request names an unresolvable partition; with no-leader when no leader
exists; on the leader with a working store it returns exactly one assigned
offset per input message, in input order (`base + 1, …, base + n`); and on
append failure it returns an error — no offsets — leaving the state as is. -/
theorem c6_produce_errors_and_offsets (cl : Cluster) (b : Broker)
    (req : ProduceReq) :
    (req.messages = [] →
       Produce cl b req =
         some (Except.error ProduceError.noMessageToProduce, b))
    ∧ (req.messages ≠ [] → b.getTopic req.topic = none →
        Produce cl b req = some (Except.error ProduceError.topicNotFound, b))
    ∧ (∀ t : Topic, req.messages ≠ [] → b.getTopic req.topic = some t →
        req.partition ≠ "" → t.getPartition req.partition = none →
        Produce cl b req =
          some (Except.error (ProduceError.unknownPartition req.partition), b))
    ∧ (∀ (t : Topic) (p : Partition),
        req.messages ≠ [] → b.getTopic req.topic = some t →
        resolvePartition cl t req.partition = some p →
        cl.leaderOf req.topic p.id = none →
        Produce cl b req = some (Except.error ProduceError.noLeaderFound, b))
    ∧ (∀ (t : Topic) (p : Partition) (leader : Node),
        req.messages ≠ [] → b.getTopic req.topic = some t →
        resolvePartition cl t req.partition = some p →
        cl.leaderOf req.topic p.id = some leader →
        leader.name = b.selfName → cl.storageFail = false →
        Produce cl b req =
          some (Except.ok (offsetsFrom p.nextOffset req.messages.length),
                setPartition b req.topic
                  { p with
                      log := p.log ++
                        assignOffsets p.nextOffset req.messages,
                      nextOffset := p.nextOffset + req.messages.length })
          ∧ (offsetsFrom p.nextOffset req.messages.length).length =
              req.messages.length)
    ∧ (∀ (t : Topic) (p : Partition) (leader : Node),
        req.messages ≠ [] → b.getTopic req.topic = some t →
        resolvePartition cl t req.partition = some p →
        cl.leaderOf req.topic p.id = some leader →
        leader.name = b.selfName → cl.storageFail = true →
        Produce cl b req =
          some (Except.error (ProduceError.storage 0), b)) := by
  refine ⟨?_, ?_, ?_, ?_, ?_, ?_⟩
  · intro h
    simp [Produce, h]
  · intro hm ht
    simp [Produce, List.length_eq_zero, hm, ht]
  · intro t hm ht hp hgp
    simp [Produce, resolvePartition, List.length_eq_zero, hm, ht, hp, hgp]
  · intro t p hm ht hr hl
    simp [Produce, List.length_eq_zero, hm, ht, hr, hl]
  · intro t p leader hm ht hr hl hname hsf
    refine ⟨?_, offsetsFrom_length p.nextOffset req.messages.length⟩
    simp [Produce, List.length_eq_zero, hm, ht, hr, hl, hname, hsf,
      batchPutMessages, assignOffsets_offsets]
  · intro t p leader hm ht hr hl hname hsf
    simp [Produce, List.length_eq_zero, hm, ht, hr, hl, hname, hsf,
      batchPutMessages]

/-- A concrete partition for witnesses. -/
def part0 : Partition := ⟨"p0", [], 0⟩

/-- A concrete topic for witnesses. -/
def topicT : Topic := ⟨"T", [part0]⟩

/-- A concrete broker ("n1") for witnesses. -/
def broker0 : Broker := ⟨"n1", [topicT]⟩

/-- A cluster whose leader is this node ("n1"); the forward oracle is never
consulted. -/
def cluster0 : Cluster :=
  ⟨fun _ _ => some ⟨"n1"⟩, fun _ => Except.error ProduceError.topicNotFound,
   0, false⟩

/-- A concrete one-message request for witnesses. -/
def req0 : ProduceReq := ⟨"T", "p0", [msg0]⟩

/-- Witness for C6 at a concrete input: on the leader, producing one message
returns exactly one offset. -/
theorem c6_produce_errors_and_offsets_witness :
    Produce cluster0 broker0 req0 =
      some (Except.ok (offsetsFrom part0.nextOffset req0.messages.length),
            setPartition broker0 req0.topic
              { part0 with
                  log := part0.log ++
                    assignOffsets part0.nextOffset req0.messages,
                  nextOffset := part0.nextOffset + req0.messages.length })
    ∧ (offsetsFrom part0.nextOffset req0.messages.length).length =
        req0.messages.length :=
  (c6_produce_errors_and_offsets cluster0 broker0 req0).2.2.2.2.1
    topicT part0 ⟨"n1"⟩ (by decide) (by decide) (by decide) (by decide)
    (by decide) rfl

/-- C7: on a non-leader node, `Produce` hands the request UNMODIFIED to the
router's forward call, returns the leader's response verbatim, and leaves the
local broker state — hence every local partition log — unchanged. -/
theorem c7_forward_verbatim_no_local_write (cl : Cluster) (b : Broker)
    (req : ProduceReq) (t : Topic) (p : Partition) (leader : Node)
    (hm : req.messages ≠ []) (ht : b.getTopic req.topic = some t)
    (hp : resolvePartition cl t req.partition = some p)
    (hl : cl.leaderOf req.topic p.id = some leader)
    (hne : leader.name ≠ b.selfName) :
    Produce cl b req = some (cl.forward req, b) := by
  simp [Produce, List.length_eq_zero, hm, ht, hp, hl, hne]

/-- A cluster whose leader is another node ("n2") answering every forwarded
produce with offset 42. -/
def clusterFwd : Cluster :=
  ⟨fun _ _ => some ⟨"n2"⟩, fun _ => Except.ok [42], 0, false⟩

/-- Witness for C7 at a concrete input: the non-leader returns the leader's
response and keeps its local state. -/
theorem c7_forward_verbatim_no_local_write_witness :
    Produce clusterFwd broker0 req0 =
      some (clusterFwd.forward req0, broker0) :=
  c7_forward_verbatim_no_local_write clusterFwd broker0 req0 topicT part0
    ⟨"n2"⟩ (by decide) (by decide) (by decide) (by decide) (by decide)

/-- A registered merge function `(existing, operand) → (newValue, keep?)`
(`storage.MergeOperator.MergeFunc`). -/
abbrev MergeFunc := Bytes → Bytes → Bytes × Bool

/-- The per-pair wrapper `badger/badger.go` registers with badger's
`GetMergeOperator`: apply `MergeFunc`; when it reports not-ok, keep the
existing value. -/
def badgerMergeFn (f : MergeFunc) (existing value : Bytes) : Bytes :=
  if (f existing value).2 = true then (f existing value).1 else existing

/-- Modelled from the spec: badger's `GetMergeOperator` (library code, not
among the sources) folds the registered function over the queued operands. -/
def badgerFullMerge (f : MergeFunc) (existing : Bytes)
    (operands : List Bytes) : Bytes :=
  operands.foldl (badgerMergeFn f) existing

/-- `mergeOperator.FullMerge` from the rocksdb backend: fold `MergeFunc` over
the operands, aborting the whole merge (`nil, false`, here `none`) as soon as
it reports not-ok. -/
def rocksFullMerge (f : MergeFunc) : Bytes → List Bytes → Option Bytes
  | existing, [] => some existing
  | existing, op :: rest =>
    if (f existing op).2 = true then rocksFullMerge f (f existing op).1 rest
    else none

/-- A merge function that always reports not-ok, for the counterexample. -/
def rejectMerge : MergeFunc := fun _ _ => ([], false)

/-- A merge function that concatenates and always succeeds, for the
witness. -/
def concatMerge : MergeFunc := fun e o => (e ++ o, true)

/-- C5: the two wrappers do NOT always compute the same final stored value.
With a merge function that reports not-ok, the badger wrapper keeps the
existing value `[0]` and completes, while the rocksdb wrapper aborts the
whole merge — the final stored values differ. -/
theorem c5_counterexample :
    badgerFullMerge rejectMerge [0] [[1]] = [0]
    ∧ rocksFullMerge rejectMerge [0] [[1]] = none
    ∧ rocksFullMerge rejectMerge [0] [[1]] ≠
        some (badgerFullMerge rejectMerge [0] [[1]]) := by
  refine ⟨rfl, rfl, by decide⟩

/-- C5 (amended): the wrappers agree exactly on the merges the rocksdb side
completes — whenever `FullMerge` folds through every operand successfully,
the badger fold computes the same final value; they differ when `MergeFunc`
reports not-ok (badger keeps the existing value and continues, rocksdb aborts
the whole merge). -/
theorem c5_merge_wrappers_agree (f : MergeFunc) (existing v : Bytes)
    (operands : List Bytes)
    (h : rocksFullMerge f existing operands = some v) :
    badgerFullMerge f existing operands = v := by
  induction operands generalizing existing with
  | nil =>
    unfold rocksFullMerge at h
    injection h with h
  | cons op rest ih =>
    unfold rocksFullMerge at h
    by_cases hok : (f existing op).2 = true
    · rw [if_pos hok] at h
      unfold badgerFullMerge
      rw [List.foldl_cons]
      have hm : badgerMergeFn f existing op = (f existing op).1 := by
        unfold badgerMergeFn
        rw [if_pos hok]
      rw [hm]
      exact ih _ h
    · rw [if_neg hok] at h
      exact Option.noConfusion h

/-- Witness for C5 (amended): a concatenating merge function completes on the
rocksdb side, and the badger fold returns the same bytes. -/
theorem c5_merge_wrappers_agree_witness :
    badgerFullMerge concatMerge [0] [[1], [2]] = [0, 1, 2] :=
  c5_merge_wrappers_agree concatMerge [0] [0, 1, 2] [[1], [2]] (by decide)

/-- The badger store: an association list from keys to values. -/
abbrev Store := List (Bytes × Bytes)

/-- `Storage.Get`, collapsed to the key lookup. -/
def storeGet (st : Store) (k : Bytes) : Option Bytes :=
  (st.find? (fun e => e.1 == k)).map (fun e => e.2)

/-- A badger transaction: its pending write set (`some v` = set, `none` =
delete), applied to the store only on commit. -/
structure Txn where
  pending : List (Bytes × Option Bytes)

/-- `txn.Delete(key)`: queue a pending delete. -/
def Txn.delete (txn : Txn) (k : Bytes) : Txn :=
  ⟨txn.pending ++ [(k, none)]⟩

/-- `txn.Commit`: apply the pending writes to the store. -/
def Txn.commit (st : Store) (txn : Txn) : Store :=
  txn.pending.foldl
    (fun acc e =>
      match e.2 with
      | some v => acc.filter (fun kv => !(kv.1 == e.1)) ++ [(e.1, v)]
      | none => acc.filter (fun kv => !(kv.1 == e.1)))
    st

/-- `txn.Discard()`: drop the pending writes; the store is untouched. -/
def Txn.discard (st : Store) (_txn : Txn) : Store := st

/-- `Storage.Delete` from `badger/badger.go`: open a read-write transaction,
defer its `Discard`, queue the delete and return its error — `Commit` is
never called, so only the deferred `Discard` runs. -/
def badgerDelete (st : Store) (k : Bytes) : Store × Option Nat :=
  (Txn.discard st (Txn.delete ⟨[]⟩ k), none)

/-- `Storage.BatchDelete` from `badger/badger.go`: one transaction, every
delete queued, deferred `Discard`, and again no `Commit`. -/
def badgerBatchDelete (st : Store) (keys : List Bytes) :
    Store × Option Nat :=
  (Txn.discard st (keys.foldl Txn.delete ⟨[]⟩), none)

/-- For contrast, a COMMITTED single-delete transaction really removes the
key: the discard-only behaviour below is about the missing commit, not about
the transaction model being inert. -/
theorem commit_delete_removes (st : Store) (k : Bytes) :
    storeGet (Txn.commit st (Txn.delete ⟨[]⟩ k)) k = none := by
  have hc : Txn.commit st (Txn.delete ⟨[]⟩ k) =
      st.filter (fun kv => !(kv.1 == k)) := rfl
  have hfind : (st.filter (fun kv => !(kv.1 == k))).find?
      (fun e => e.1 == k) = none := by
    rw [List.find?_eq_none]
    intro x hx
    have hmem := (List.mem_filter.mp hx).2
    simp only [Bool.not_eq_true'] at hmem
    simp [hmem]
  unfold storeGet
  rw [hc, hfind]
  rfl

/-- C10: badger `Delete` and `BatchDelete` queue their deletes in a
transaction that is discarded without ever being committed, so the store is
left unchanged: a `Get` of any key after `Delete(k)` or `BatchDelete(keys)`
returns the same value as before the call. -/
theorem c10_delete_discarded_noop (st : Store) (k : Bytes)
    (keys : List Bytes) :
    (badgerDelete st k).1 = st
    ∧ storeGet (badgerDelete st k).1 k = storeGet st k
    ∧ (badgerBatchDelete st keys).1 = st
    ∧ storeGet (badgerBatchDelete st keys).1 k = storeGet st k :=
  ⟨rfl, rfl, rfl, rfl⟩

end Sandglass
